import Mathlib

/-!
Verification development for the Omega TV recommendation engine
(repository: exogenesis-omega, C API in crates/omega-tv-sdk/include/omega_sdk.h).

The repository ships the C API surface (omega_sdk.h) and example drivers;
the core components behind that surface (Pattern Store, Scoring Engine,
Event Ingestion, Sync Reconciler) are declared but their implementation is
not part of the available sources. Each definition below that embeds one of
those missing components is marked "Modelled from the spec:" and follows the
specification text. Scores are embedded as rationals, timestamps as
naturals, identifiers as strings.
-/

namespace Omega

/-- Clamp a rational to the interval [0, 1]. Used wherever the spec bounds a
score or a blending coefficient to [0, 1]. -/
def clamp01 (x : ℚ) : ℚ := max 0 (min 1 x)

/-- Provenance tag of a pattern: learned locally or received from the
federated aggregation service. -/
inductive Origin where
  | loc : Origin
  | federated : Origin
deriving DecidableEq

/-- Modelled from the spec: ContentPattern (section 3, data model), whose
implementation is missing from the sources. Accumulated evidence about one
piece of content: identifier, bounded score, sample count, last-updated
timestamp, origin tag. -/
structure ContentPattern where
  id : String
  score : ℚ
  sampleCount : ℕ
  lastUpdated : ℕ
  origin : Origin
deriving DecidableEq

/-- Modelled from the spec: PatternStore (section 3), whose implementation is
missing from the sources. The aggregate owning all ContentPattern entries,
keyed by identifier, with a monotonic version counter. -/
structure PatternStore where
  entries : List ContentPattern
  version : ℕ
deriving DecidableEq

/-- The empty store, the state at cold start. -/
def emptyStore : PatternStore := { entries := [], version := 0 }

/-- The identifiers currently present in a store, in entry order. -/
def keys (s : PatternStore) : List String := s.entries.map (·.id)

/-- Modelled from the spec: the entry-list part of `upsert` (section 4.1),
whose implementation is missing from the sources. Blends `deltaScore` into
the existing score by the exponential-moving-average rule
`new_score = old_score*(1-α) + delta_score*α` with α the sample weight
clamped to [0,1]; creates the entry if absent (old score 0); increments the
sample count; keeps last-updated monotone per key; the result is clamped to
the documented score bound [0,1]. -/
def upsertEntry (id : String) (deltaScore sampleWeight : ℚ) (ts : ℕ) :
    List ContentPattern → List ContentPattern
  | [] => [{ id := id, score := clamp01 (deltaScore * clamp01 sampleWeight),
             sampleCount := 1, lastUpdated := ts, origin := Origin.loc }]
  | e :: rest =>
    if e.id = id then
      { e with
        score := clamp01 (e.score * (1 - clamp01 sampleWeight)
                          + deltaScore * clamp01 sampleWeight),
        sampleCount := e.sampleCount + 1,
        lastUpdated := max e.lastUpdated ts } :: rest
    else
      e :: upsertEntry id deltaScore sampleWeight ts rest

/-- Modelled from the spec: `upsert` (section 4.1), whose implementation is
missing from the sources. Rejects an empty identifier, otherwise updates the
entry list and bumps the version. -/
def upsert (s : PatternStore) (id : String) (deltaScore sampleWeight : ℚ)
    (ts : ℕ) : Except String PatternStore :=
  if id = "" then Except.error "empty identifier"
  else Except.ok
    { entries := upsertEntry id deltaScore sampleWeight ts s.entries,
      version := s.version + 1 }

/-- One pending upsert request, as queued by the ingestion pipeline. -/
structure UpsertCall where
  id : String
  deltaScore : ℚ
  sampleWeight : ℚ
  ts : ℕ

/-- Apply one upsert request; a rejected request (empty id) leaves the store
unchanged, matching the contract that upsert never fails otherwise. -/
def applyUpsert (s : PatternStore) (c : UpsertCall) : PatternStore :=
  match upsert s c.id c.deltaScore c.sampleWeight c.ts with
  | Except.ok s2 => s2
  | Except.error _ => s

/-- Apply a sequence of upsert requests in order. -/
def applyUpserts (s : PatternStore) (cs : List UpsertCall) : PatternStore :=
  cs.foldl applyUpsert s

/-- Score-bound invariant of the spec: every entry score lies in [0, 1]. -/
def ScoreInv (s : PatternStore) : Prop :=
  ∀ e ∈ s.entries, 0 ≤ e.score ∧ e.score ≤ 1

/-- Well-formedness used by the store invariant claims: no duplicate keys
and no negative score. -/
def StoreWF (s : PatternStore) : Prop :=
  (keys s).Nodup ∧ ∀ e ∈ s.entries, 0 ≤ e.score

/-- Modelled from the spec: the half-life decay factor (section 4.1,
`decay`), whose implementation is missing from the sources. After `elapsed`
time units with half-life `halfLife`, the score is multiplied by
(1/2) raised to the number of whole half-lives elapsed. -/
def decayFactor (halfLife elapsed : ℕ) : ℚ :=
  (1 / 2 : ℚ) ^ (elapsed / halfLife)

/-- Modelled from the spec: the decayed score of one entry at time `now`. -/
def decayedScore (score : ℚ) (lastUpdated halfLife now : ℕ) : ℚ :=
  score * decayFactor halfLife (now - lastUpdated)

/-- Modelled from the spec: `decay(now)` applied to the whole store (lazily
on read, so it does not bump the version). -/
def decayStore (s : PatternStore) (halfLife now : ℕ) : PatternStore :=
  { entries := s.entries.map fun e =>
      { e with score := decayedScore e.score e.lastUpdated halfLife now },
    version := s.version }

/-- Modelled from the spec: eviction significance = score × recency
(section 4.1, `evict_if_over_capacity`), with recency the half-life decay
factor of the time since last update. -/
def significance (halfLife now : ℕ) (e : ContentPattern) : ℚ :=
  e.score * decayFactor halfLife (now - e.lastUpdated)

/-- Comparison used to order entries for eviction: higher significance
first, ties broken by identifier (lexicographic) for determinism. -/
def sigGE (halfLife now : ℕ) (a b : ContentPattern) : Bool :=
  decide (significance halfLife now b < significance halfLife now a ∨
    (significance halfLife now a = significance halfLife now b ∧ a.id ≤ b.id))

/-- Modelled from the spec: `evict_if_over_capacity` (section 4.1), whose
implementation is missing from the sources. When the entry count exceeds the
configured ceiling `cap`, keep only the `cap` highest-significance entries
(removing the lowest score × recency entries first); bumps the version as a
mutating call. -/
def evictIfOverCapacity (s : PatternStore) (halfLife now cap : ℕ) :
    PatternStore :=
  if s.entries.length ≤ cap then { s with version := s.version + 1 }
  else
    { entries := (s.entries.mergeSort (sigGE halfLife now)).take cap,
      version := s.version + 1 }

/-- Modelled from the spec: the weighted combination rule of
`merge_federated` (section 4.1), whose implementation is missing from the
sources. A local entry with sample count n moves toward the (clamped)
federated score with weight 1/(n+1): local evidence dominates when n is
high. -/
def mergeScore (n : ℕ) (localScore incoming : ℚ) : ℚ :=
  ((n : ℚ) * localScore + clamp01 incoming) / ((n : ℚ) + 1)

/-- The entry inserted when a federated pattern has no local counterpart:
same data with the score clamped to [0,1] and origin `federated`. -/
def fedEntry (g : ContentPattern) : ContentPattern :=
  { id := g.id, score := clamp01 g.score, sampleCount := g.sampleCount,
    lastUpdated := g.lastUpdated, origin := Origin.federated }

/-- Modelled from the spec: merging one incoming federated pattern into the
entry list. If a local entry with the same id exists its score is combined
by `mergeScore`; otherwise the pattern is appended as a federated-origin
entry. -/
def mergeEntry (g : ContentPattern) :
    List ContentPattern → List ContentPattern
  | [] => [fedEntry g]
  | e :: rest =>
    if e.id = g.id then
      { e with score := mergeScore e.sampleCount e.score g.score } :: rest
    else
      e :: mergeEntry g rest

/-- Modelled from the spec: `merge_federated(global_set)` (section 4.1),
whose implementation is missing from the sources. Folds every incoming
pattern into the store and bumps the version once, as one logical write. -/
def mergeFederated (s : PatternStore) (global : List ContentPattern) :
    PatternStore :=
  { entries := global.foldl (fun l g => mergeEntry g l) s.entries,
    version := s.version + 1 }

/-- Modelled from the spec: `clear()` (section 4.1), whose implementation is
missing from the sources. Removes all entries; a mutating call, so the
version is bumped. -/
def clearStore (s : PatternStore) : PatternStore :=
  { entries := [], version := s.version + 1 }

/-- Modelled from the spec: ViewingContext (section 3), whose implementation
is missing from the sources. Time-of-day bucket, mood tag and recently
viewed identifiers, as in the header's context JSON. -/
structure ViewingContext where
  time : String
  mood : String
  recent : List String

/-- One ranked recommendation: identifier, rank score and the human-readable
reason label. -/
structure ScoredItem where
  id : String
  score : ℚ
  reason : String
deriving DecidableEq

/-- Recency boost drawn from the overlap with `context.recent`. -/
def recencyBoost (ctx : ViewingContext) (id : String) : ℚ :=
  if id ∈ ctx.recent then 1 else 0

/-- Modelled from the spec: the final rank key of the Scoring Engine
(section 4.2), whose implementation is missing from the sources. Weighted
sum of the pattern score, the opaque context-relevance function `rel`, and
the recency boost. The weights and `rel` are injected capabilities. -/
def rankKey (rel : ViewingContext → String → ℚ) (wP wC wR : ℚ)
    (ctx : ViewingContext) (e : ContentPattern) : ℚ :=
  wP * e.score + wC * rel ctx e.id + wR * recencyBoost ctx e.id

/-- Modelled from the spec: the reason label, chosen from the dominant
contributing factor (pattern affinity vs. context match vs. trending). -/
def reasonLabel (rel : ViewingContext → String → ℚ) (wP wC wR : ℚ)
    (ctx : ViewingContext) (e : ContentPattern) : String :=
  let p := wP * e.score
  let c := wC * rel ctx e.id
  let r := wR * recencyBoost ctx e.id
  if c ≤ p ∧ r ≤ p then "pattern affinity"
  else if r ≤ c then "context match"
  else "trending"

/-- Ranking order of the Scoring Engine: higher rank key first, ties broken
by identifier (lexicographic) for determinism. -/
def rankLE (rel : ViewingContext → String → ℚ) (wP wC wR : ℚ)
    (ctx : ViewingContext) (a b : ContentPattern) : Bool :=
  decide (rankKey rel wP wC wR ctx b < rankKey rel wP wC wR ctx a ∨
    (rankKey rel wP wC wR ctx a = rankKey rel wP wC wR ctx b ∧ a.id ≤ b.id))

/-- Modelled from the spec: `recommend(context, snapshot, top_k)`
(section 4.2), whose implementation is missing from the sources. Ranks the
snapshot entries by the weighted key with lexicographic tie-break and
returns at most `topK` items. Pure in the snapshot, the context and the
injected capabilities. -/
def recommend (rel : ViewingContext → String → ℚ) (wP wC wR : ℚ)
    (ctx : ViewingContext) (snapshot : PatternStore) (topK : ℕ) :
    List ScoredItem :=
  ((snapshot.entries.mergeSort (rankLE rel wP wC wR ctx)).take topK).map
    fun e => { id := e.id, score := rankKey rel wP wC wR ctx e,
               reason := reasonLabel rel wP wC wR ctx e }

/-- Modelled from the spec: the recommend operation as a fallible outcome.
The Scoring Engine has no error condition of its own: an empty snapshot
degrades gracefully to an empty successful result. -/
def recommendE (rel : ViewingContext → String → ℚ) (wP wC wR : ℚ)
    (ctx : ViewingContext) (snapshot : PatternStore) (topK : ℕ) :
    Except String (List ScoredItem) :=
  Except.ok (recommend rel wP wC wR ctx snapshot topK)

/-- Modelled from the spec: ViewingEvent (section 3 and the header's event
JSON), whose implementation is missing from the sources. Required content
identifier and watch fraction, optional duration, rating and timestamp. -/
structure ViewingEvent where
  contentId : String
  watchPct : ℚ
  durationSec : Option ℕ
  rating : Option ℚ
  timestamp : Option ℕ

/-- Rejection reasons of the ingestion pipeline, distinguishing a missing
field from an out-of-range value. -/
inductive RejectReason where
  | missingField : String → RejectReason
  | outOfRange : String → RejectReason
deriving DecidableEq

/-- Outcome of `observe`: accepted, or rejected with a specific reason. -/
inductive ObserveResult where
  | accepted : ObserveResult
  | rejected : RejectReason → ObserveResult
deriving DecidableEq

/-- Modelled from the spec: the validation step of `observe(event)`
(section 4.3), whose implementation is missing from the sources. The content
identifier must be non-empty and the watch fraction must lie in [0,1]. -/
def observeValidate (ev : ViewingEvent) : ObserveResult :=
  if ev.contentId = "" then
    ObserveResult.rejected (RejectReason.missingField "content_id")
  else if ev.watchPct < 0 ∨ 1 < ev.watchPct then
    ObserveResult.rejected (RejectReason.outOfRange "watch_pct")
  else
    ObserveResult.accepted

/-- Sync cycle states of the reconciler (section 4.4). -/
inductive SyncState where
  | idle : SyncState
  | exporting : SyncState
  | awaitingPeer : SyncState
  | merging : SyncState
  | failed : SyncState
deriving DecidableEq

/-- A sync cycle in Exporting, AwaitingPeer or Merging is busy; a concurrent
request must be rejected in those states. -/
def SyncState.busy : SyncState → Bool
  | SyncState.exporting => true
  | SyncState.awaitingPeer => true
  | SyncState.merging => true
  | SyncState.idle => false
  | SyncState.failed => false

/-- Modelled from the spec: the engine instance owning the Pattern Store and
the sync state, whose implementation is missing from the sources. -/
structure Engine where
  store : PatternStore
  syncState : SyncState
  lastSync : Option ℕ

/-- Outcome of a sync request: a new cycle started, or one was already in
progress. -/
inductive SyncStart where
  | started : SyncStart
  | inProgress : SyncStart
deriving DecidableEq

/-- Modelled from the spec: issuing a sync request (section 4.4). A busy
cycle rejects the request with "sync in progress" and changes nothing;
otherwise the cycle enters Exporting. -/
def startSync (e : Engine) : SyncStart × Engine :=
  if e.syncState.busy then (SyncStart.inProgress, e)
  else (SyncStart.started, { e with syncState := SyncState.exporting })

/-- Modelled from the spec: export significance = score × log(1+samples)
(section 4.4), with the natural base-2 logarithm as the executable
embedding of the logarithm. -/
def exportSignificance (e : ContentPattern) : ℚ :=
  e.score * (Nat.log 2 (1 + e.sampleCount) : ℚ)

/-- Comparison ordering entries for the sync export selection. -/
def exportGE (a b : ContentPattern) : Bool :=
  decide (exportSignificance b < exportSignificance a ∨
    (exportSignificance a = exportSignificance b ∧ a.id ≤ b.id))

/-- Modelled from the spec: the Exporting phase selection (section 4.4): up
to `budget` entries ranked by export significance, excluding entries whose
sample count is below `minSamples`. -/
def selectDelta (budget minSamples : ℕ) (s : PatternStore) :
    List ContentPattern :=
  (((s.entries.filter fun e => minSamples ≤ e.sampleCount).mergeSort
      exportGE).take budget)

/-- Modelled from the spec: the Exporting step of a started cycle: compute
the delta from a snapshot and move to AwaitingPeer. -/
def beginExport (budget minSamples : ℕ) (e : Engine) :
    List ContentPattern × Engine :=
  if e.syncState = SyncState.exporting then
    (selectDelta budget minSamples e.store,
     { e with syncState := SyncState.awaitingPeer })
  else ([], e)

/-- Modelled from the spec: receiving the peer's GlobalPatternSet moves an
AwaitingPeer cycle to Merging; in any other state nothing happens. -/
def receiveResponse (e : Engine) : Engine :=
  if e.syncState = SyncState.awaitingPeer then
    { e with syncState := SyncState.merging }
  else e

/-- Modelled from the spec: a timeout or transport failure in AwaitingPeer
moves the cycle to Failed without mutating the store. -/
def peerTimeout (e : Engine) : Engine :=
  if e.syncState = SyncState.awaitingPeer then
    { e with syncState := SyncState.failed }
  else e

/-- Modelled from the spec: the Failed state always returns to Idle; sync
failure is never fatal to the engine. -/
def recoverFailed (e : Engine) : Engine :=
  if e.syncState = SyncState.failed then
    { e with syncState := SyncState.idle }
  else e

/-- Modelled from the spec: the Merging step applies `merge_federated`,
records the last-sync timestamp and returns to Idle. -/
def applyMergeStep (gs : List ContentPattern) (now : ℕ) (e : Engine) :
    Engine :=
  if e.syncState = SyncState.merging then
    { store := mergeFederated e.store gs, syncState := SyncState.idle,
      lastSync := some now }
  else e

/-- Return codes of the C API (omega_sdk.h). -/
def SUCCESS : Int := 0

/-- Return code of the C API: SDK not initialized. -/
def ERR_NOT_INITIALIZED : Int := -8

/-- Return code of the C API: SDK already initialized. -/
def ERR_ALREADY_INITIALIZED : Int := -9

/-- Return code of the C API: invalid argument (used for a rejected
event). -/
def ERR_INVALID_ARG : Int := -5

/-- The engine state right after a successful omega_init. -/
def freshEngine : Engine :=
  { store := emptyStore, syncState := SyncState.idle, lastSync := none }

/-- Calls of the C API surface, as abstract records (the JSON codec is an
external collaborator per the spec's scope). -/
inductive ApiCall where
  | initCall : ApiCall
  | shutdownCall : ApiCall
  | recommendCall : ViewingContext → ℕ → ApiCall
  | observeCall : ViewingEvent → ApiCall
  | syncCall : ApiCall
  | clearCall : ApiCall
  | statsCall : ApiCall
  | versionCall : ApiCall
  | isInitCall : ApiCall
  | lastErrorCall : ApiCall

/-- Calls that require an initialized SDK: everything except omega_init,
omega_version, omega_is_initialized and omega_get_last_error. -/
def gated : ApiCall → Bool
  | ApiCall.initCall => false
  | ApiCall.versionCall => false
  | ApiCall.isInitCall => false
  | ApiCall.lastErrorCall => false
  | _ => true

/-- Modelled from the spec: folding an accepted event into the store via
upsert; a rejected event leaves the engine unchanged. -/
def observeApply (ev : ViewingEvent) (e : Engine) : Engine :=
  match observeValidate ev with
  | ObserveResult.accepted =>
    match upsert e.store ev.contentId ev.watchPct ev.watchPct
        (ev.timestamp.getD 0) with
    | Except.ok s2 => { e with store := s2 }
    | Except.error _ => e
  | ObserveResult.rejected _ => e

/-- Modelled from the spec: the work an initialized engine performs for one
gated call. -/
def engineStep (c : ApiCall) (e : Engine) : Int × Engine :=
  match c with
  | ApiCall.observeCall ev =>
    match observeValidate ev with
    | ObserveResult.accepted => (SUCCESS, observeApply ev e)
    | ObserveResult.rejected _ => (ERR_INVALID_ARG, e)
  | ApiCall.syncCall => (SUCCESS, (startSync e).2)
  | ApiCall.clearCall => (SUCCESS, { e with store := clearStore e.store })
  | _ => (SUCCESS, e)

/-- Modelled from the spec and the header contracts: one C API call against
the optional engine state (none = not initialized). A gated call before
omega_init or after omega_shutdown returns OMEGA_ERR_NOT_INITIALIZED and
performs no work; omega_init while initialized returns
OMEGA_ERR_ALREADY_INITIALIZED. -/
def applyCall (s : Option Engine) (c : ApiCall) : Int × Option Engine :=
  match c with
  | ApiCall.initCall =>
    match s with
    | some e => (ERR_ALREADY_INITIALIZED, some e)
    | none => (SUCCESS, some freshEngine)
  | ApiCall.versionCall => (SUCCESS, s)
  | ApiCall.isInitCall => (if s.isSome then (1, s) else (0, s))
  | ApiCall.lastErrorCall => (SUCCESS, s)
  | ApiCall.shutdownCall =>
    match s with
    | some _ => (SUCCESS, none)
    | none => (ERR_NOT_INITIALIZED, none)
  | c2 =>
    match s with
    | some e => (fun p => (p.1, some p.2)) (engineStep c2 e)
    | none => (ERR_NOT_INITIALIZED, none)

/-- Run a list of C API calls from the uninitialized state. -/
def runCalls (cs : List ApiCall) : Option Engine :=
  cs.foldl (fun s c => (applyCall s c).2) none

/-- Whether a successful omega_init has occurred without a subsequent
omega_shutdown: the last lifecycle event in the call list is an init. -/
def activeAfter (cs : List ApiCall) : Bool :=
  cs.foldl
    (fun b c =>
      match c with
      | ApiCall.initCall => true
      | ApiCall.shutdownCall => false
      | _ => b)
    false

/-- One entry of the end-to-end eviction scenario store. -/
def demoEntry (i : ℕ) : ContentPattern :=
  { id := "c" ++ toString i, score := (i : ℚ) / 200, sampleCount := i,
    lastUpdated := i, origin := Origin.loc }

/-- The end-to-end eviction scenario store: 200 entries against a capacity
ceiling of 100. -/
def demoStore : PatternStore :=
  { entries := (List.range 200).map demoEntry, version := 0 }

/-! Helper lemmas shared by the claim theorems. -/

theorem clamp01_nonneg (x : ℚ) : 0 ≤ clamp01 x :=
  le_max_left 0 _

theorem clamp01_le_one (x : ℚ) : clamp01 x ≤ 1 :=
  max_le (by norm_num) (min_le_left 1 x)

theorem mem_upsertEntry_score {id : String} {d w : ℚ} {ts : ℕ}
    {l : List ContentPattern}
    (h : ∀ e ∈ l, 0 ≤ e.score ∧ e.score ≤ 1) :
    ∀ e2 ∈ upsertEntry id d w ts l, 0 ≤ e2.score ∧ e2.score ≤ 1 := by
  induction l with
  | nil =>
    intro e2 he2
    simp only [upsertEntry, List.mem_singleton] at he2
    subst he2
    exact ⟨clamp01_nonneg _, clamp01_le_one _⟩
  | cons e rest ih =>
    intro e2 he2
    simp only [upsertEntry] at he2
    by_cases hid : e.id = id
    · rw [if_pos hid] at he2
      rcases List.mem_cons.mp he2 with h1 | h2
      · subst h1
        exact ⟨clamp01_nonneg _, clamp01_le_one _⟩
      · exact h e2 (List.mem_cons_of_mem _ h2)
    · rw [if_neg hid] at he2
      rcases List.mem_cons.mp he2 with h1 | h2
      · subst h1
        exact h e2 (List.mem_cons_self _ _)
      · exact ih (fun x hx => h x (List.mem_cons_of_mem _ hx)) e2 h2

theorem scoreInv_applyUpsert {s : PatternStore} (c : UpsertCall)
    (h : ScoreInv s) : ScoreInv (applyUpsert s c) := by
  unfold applyUpsert upsert
  by_cases hid : c.id = ""
  · rw [if_pos hid]
    exact h
  · rw [if_neg hid]
    intro e he
    exact mem_upsertEntry_score h e he

/-- C1: for every sequence of upsert calls, each blending by the
exponential-moving-average rule with the coefficient clamped to [0,1], every
ContentPattern score in the Pattern Store stays within [0,1] and every
sample count stays nonnegative. -/
theorem upsert_sequence_score_bounds (s : PatternStore) (cs : List UpsertCall)
    (h : ScoreInv s) :
    ScoreInv (applyUpserts s cs) ∧
      ∀ e ∈ (applyUpserts s cs).entries, 0 ≤ e.sampleCount := by
  constructor
  · unfold applyUpserts
    induction cs generalizing s with
    | nil => exact h
    | cons c rest ih =>
      exact ih (applyUpsert s c) (scoreInv_applyUpsert c h)
  · intro e _
    exact Nat.zero_le _

/-- Witness for C1 at a concrete store and call sequence. -/
theorem upsert_sequence_score_bounds_witness :
    ScoreInv emptyStore ∧
      (ScoreInv (applyUpserts emptyStore
          [{ id := "m1", deltaScore := 7, sampleWeight := 2, ts := 5 },
           { id := "m1", deltaScore := -3, sampleWeight := 1/2, ts := 9 }]) ∧
        ∀ e ∈ (applyUpserts emptyStore
          [{ id := "m1", deltaScore := 7, sampleWeight := 2, ts := 5 },
           { id := "m1", deltaScore := -3, sampleWeight := 1/2, ts := 9 }]).entries,
          0 ≤ e.sampleCount) := by
  have hinv : ScoreInv emptyStore := by
    intro e he
    simp [emptyStore] at he
  exact ⟨hinv, upsert_sequence_score_bounds emptyStore _ hinv⟩

theorem nodup_append_singleton {α : Type} {xs : List α} {a : α}
    (h : xs.Nodup) (ha : a ∉ xs) : (xs ++ [a]).Nodup := by
  rw [List.nodup_append]
  refine ⟨h, List.nodup_singleton a, ?_⟩
  intro x hx hx2
  simp only [List.mem_singleton] at hx2
  subst hx2
  exact ha hx

theorem upsertEntry_map_id (id : String) (d w : ℚ) (ts : ℕ)
    (l : List ContentPattern) :
    (upsertEntry id d w ts l).map (·.id) =
      if id ∈ l.map (·.id) then l.map (·.id) else l.map (·.id) ++ [id] := by
  induction l with
  | nil => simp [upsertEntry]
  | cons e rest ih =>
    by_cases hid : e.id = id
    · simp [upsertEntry, hid]
    · simp only [upsertEntry, if_neg hid, List.map_cons, List.mem_cons]
      rw [ih]
      by_cases hmem : id ∈ rest.map (·.id)
      · rw [if_pos hmem, if_pos (Or.inr hmem)]
      · rw [if_neg hmem, if_neg ?_]
        · simp
        · intro hor
          rcases hor with hor | hor
          · exact hid hor.symm
          · exact hmem hor

theorem mem_upsertEntry_nonneg {id : String} {d w : ℚ} {ts : ℕ}
    {l : List ContentPattern}
    (h : ∀ e ∈ l, 0 ≤ e.score) :
    ∀ e2 ∈ upsertEntry id d w ts l, 0 ≤ e2.score := by
  induction l with
  | nil =>
    intro e2 he2
    simp only [upsertEntry, List.mem_singleton] at he2
    subst he2
    exact clamp01_nonneg _
  | cons e rest ih =>
    intro e2 he2
    simp only [upsertEntry] at he2
    by_cases hid : e.id = id
    · rw [if_pos hid] at he2
      rcases List.mem_cons.mp he2 with h1 | h2
      · subst h1
        exact clamp01_nonneg _
      · exact h e2 (List.mem_cons_of_mem _ h2)
    · rw [if_neg hid] at he2
      rcases List.mem_cons.mp he2 with h1 | h2
      · subst h1
        exact h e2 (List.mem_cons_self _ _)
      · exact ih (fun x hx => h x (List.mem_cons_of_mem _ hx)) e2 h2

theorem nodup_upsertEntry {id : String} {d w : ℚ} {ts : ℕ}
    {l : List ContentPattern}
    (h : (l.map (·.id)).Nodup) :
    ((upsertEntry id d w ts l).map (·.id)).Nodup := by
  rw [upsertEntry_map_id]
  by_cases hmem : id ∈ l.map (·.id)
  · rw [if_pos hmem]
    exact h
  · rw [if_neg hmem]
    exact nodup_append_singleton h hmem

theorem mergeEntry_map_id (g : ContentPattern) (l : List ContentPattern) :
    (mergeEntry g l).map (·.id) =
      if g.id ∈ l.map (·.id) then l.map (·.id)
      else l.map (·.id) ++ [g.id] := by
  induction l with
  | nil => simp [mergeEntry, fedEntry]
  | cons e rest ih =>
    by_cases hid : e.id = g.id
    · simp [mergeEntry, hid]
    · simp only [mergeEntry, if_neg hid, List.map_cons, List.mem_cons]
      rw [ih]
      by_cases hmem : g.id ∈ rest.map (·.id)
      · rw [if_pos hmem, if_pos (Or.inr hmem)]
      · rw [if_neg hmem, if_neg ?_]
        · simp
        · intro hor
          rcases hor with hor | hor
          · exact hid hor.symm
          · exact hmem hor

theorem mergeScore_nonneg (n : ℕ) (localScore incoming : ℚ)
    (h : 0 ≤ localScore) : 0 ≤ mergeScore n localScore incoming := by
  unfold mergeScore
  apply div_nonneg
  · have h1 : (0 : ℚ) ≤ (n : ℚ) * localScore :=
      mul_nonneg (Nat.cast_nonneg n) h
    have h2 : (0 : ℚ) ≤ clamp01 incoming := clamp01_nonneg _
    linarith
  · have : (0 : ℚ) ≤ (n : ℚ) := Nat.cast_nonneg n
    linarith

theorem mem_mergeEntry_nonneg {g : ContentPattern} {l : List ContentPattern}
    (h : ∀ e ∈ l, 0 ≤ e.score) :
    ∀ e2 ∈ mergeEntry g l, 0 ≤ e2.score := by
  induction l with
  | nil =>
    intro e2 he2
    simp only [mergeEntry, List.mem_singleton] at he2
    subst he2
    exact clamp01_nonneg _
  | cons e rest ih =>
    intro e2 he2
    simp only [mergeEntry] at he2
    by_cases hid : e.id = g.id
    · rw [if_pos hid] at he2
      rcases List.mem_cons.mp he2 with h1 | h2
      · subst h1
        exact mergeScore_nonneg _ _ _ (h e (List.mem_cons_self _ _))
      · exact h e2 (List.mem_cons_of_mem _ h2)
    · rw [if_neg hid] at he2
      rcases List.mem_cons.mp he2 with h1 | h2
      · subst h1
        exact h e2 (List.mem_cons_self _ _)
      · exact ih (fun x hx => h x (List.mem_cons_of_mem _ hx)) e2 h2

theorem nodup_mergeEntry {g : ContentPattern} {l : List ContentPattern}
    (h : (l.map (·.id)).Nodup) :
    ((mergeEntry g l).map (·.id)).Nodup := by
  rw [mergeEntry_map_id]
  by_cases hmem : g.id ∈ l.map (·.id)
  · rw [if_pos hmem]
    exact h
  · rw [if_neg hmem]
    exact nodup_append_singleton h hmem

theorem wf_foldl_mergeEntry (gs : List ContentPattern)
    (l : List ContentPattern)
    (hn : (l.map (·.id)).Nodup) (hs : ∀ e ∈ l, 0 ≤ e.score) :
    ((gs.foldl (fun acc g => mergeEntry g acc) l).map (·.id)).Nodup ∧
      ∀ e ∈ gs.foldl (fun acc g => mergeEntry g acc) l, 0 ≤ e.score := by
  induction gs generalizing l with
  | nil => exact ⟨hn, hs⟩
  | cons g rest ih =>
    exact ih (mergeEntry g l) (nodup_mergeEntry hn) (mem_mergeEntry_nonneg hs)

/-- C2: every mutating Pattern Store operation (upsert, merge_federated,
eviction, clear) strictly increases the version counter, and none of them
leaves the store with a negative score or a duplicate key. -/
theorem mutating_ops_version_and_wf (s : PatternStore) (h : StoreWF s) :
    (∀ (id : String) (d w : ℚ) (ts : ℕ) (s2 : PatternStore),
        upsert s id d w ts = Except.ok s2 →
          s.version < s2.version ∧ StoreWF s2) ∧
    (∀ gs : List ContentPattern,
        s.version < (mergeFederated s gs).version ∧
          StoreWF (mergeFederated s gs)) ∧
    (∀ halfLife now cap : ℕ,
        s.version < (evictIfOverCapacity s halfLife now cap).version ∧
          StoreWF (evictIfOverCapacity s halfLife now cap)) ∧
    (s.version < (clearStore s).version ∧ StoreWF (clearStore s)) := by
  obtain ⟨hn, hs⟩ := h
  have hn' : (s.entries.map (·.id)).Nodup := hn
  refine ⟨?_, ?_, ?_, ?_⟩
  · intro id d w ts s2 hok
    unfold upsert at hok
    by_cases hid : id = ""
    · rw [if_pos hid] at hok
      cases hok
    · rw [if_neg hid] at hok
      injection hok with h2
      subst h2
      unfold StoreWF keys
      refine ⟨Nat.lt_succ_self _, ?_, ?_⟩
      · exact nodup_upsertEntry hn
      · exact mem_upsertEntry_nonneg hs
  · intro gs
    refine ⟨Nat.lt_succ_self _, ?_⟩
    have := wf_foldl_mergeEntry gs s.entries hn hs
    exact ⟨this.1, this.2⟩
  · intro halfLife now cap
    unfold evictIfOverCapacity
    by_cases hlen : s.entries.length ≤ cap
    · rw [if_pos hlen]
      exact ⟨Nat.lt_succ_self _, hn, hs⟩
    · rw [if_neg hlen]
      refine ⟨Nat.lt_succ_self _, ?_, ?_⟩
      · have hperm :
            List.Perm (s.entries.mergeSort (sigGE halfLife now)) s.entries :=
          List.mergeSort_perm _ _
        have hnodup2 :
            ((s.entries.mergeSort (sigGE halfLife now)).map (·.id)).Nodup :=
          ((hperm.map (·.id)).nodup_iff).mpr hn'
        exact hnodup2.sublist
          (List.Sublist.map _ (List.take_sublist _ _))
      · intro e he
        have he2 : e ∈ s.entries.mergeSort (sigGE halfLife now) :=
          List.mem_of_mem_take he
        exact hs e (List.mem_mergeSort.mp he2)
  · exact ⟨Nat.lt_succ_self _, List.nodup_nil, fun e he => absurd he
      (List.not_mem_nil e)⟩

/-- Witness for C2 at a concrete well-formed store, exercising each
mutating operation. -/
theorem mutating_ops_version_and_wf_witness :
    StoreWF emptyStore ∧
      ((∀ (id : String) (d w : ℚ) (ts : ℕ) (s2 : PatternStore),
          upsert emptyStore id d w ts = Except.ok s2 →
            emptyStore.version < s2.version ∧ StoreWF s2) ∧
        (∀ gs : List ContentPattern,
            emptyStore.version < (mergeFederated emptyStore gs).version ∧
              StoreWF (mergeFederated emptyStore gs)) ∧
        (∀ halfLife now cap : ℕ,
            emptyStore.version <
                (evictIfOverCapacity emptyStore halfLife now cap).version ∧
              StoreWF (evictIfOverCapacity emptyStore halfLife now cap)) ∧
        (emptyStore.version < (clearStore emptyStore).version ∧
          StoreWF (clearStore emptyStore))) := by
  have hwf : StoreWF emptyStore := by
    constructor
    · simp [keys, emptyStore]
    · intro e he
      simp [emptyStore] at he
  exact ⟨hwf, mutating_ops_version_and_wf emptyStore hwf⟩

/-- C3: recommend applied to an empty Pattern Store snapshot returns an
empty result and signals success, for every context, weights and top-k. -/
theorem recommend_empty_snapshot (rel : ViewingContext → String → ℚ)
    (wP wC wR : ℚ) (ctx : ViewingContext) (s : PatternStore) (topK : ℕ)
    (h : s.entries = []) :
    recommendE rel wP wC wR ctx s topK = Except.ok [] := by
  simp [recommendE, recommend, h]

/-- Witness for C3 at the empty store with a concrete context. -/
theorem recommend_empty_snapshot_witness :
    emptyStore.entries = [] ∧
      recommendE (fun _ _ => 0) 1 1 1
        { time := "evening", mood := "relaxed", recent := [] }
        emptyStore 10 = Except.ok [] :=
  ⟨rfl, recommend_empty_snapshot _ _ _ _ _ _ _ rfl⟩

/-- C4: for a fixed entry with no new observations, the decayed score at a
later time is at most the decayed score at an earlier time, and decay only
moves a nonnegative score toward 0 (result stays in [0, score]). -/
theorem decay_monotone (score : ℚ) (lastUpdated halfLife t1 t2 : ℕ)
    (hs : 0 ≤ score) (h12 : t1 ≤ t2) :
    decayedScore score lastUpdated halfLife t2 ≤
      decayedScore score lastUpdated halfLife t1 ∧
    0 ≤ decayedScore score lastUpdated halfLife t2 ∧
    decayedScore score lastUpdated halfLife t2 ≤ score := by
  have hhalf0 : (0 : ℚ) ≤ 1 / 2 := by norm_num
  have hhalf1 : (1 / 2 : ℚ) ≤ 1 := by norm_num
  have hexp : (t1 - lastUpdated) / halfLife ≤ (t2 - lastUpdated) / halfLife :=
    Nat.div_le_div_right (Nat.sub_le_sub_right h12 _)
  have hfac : decayFactor halfLife (t2 - lastUpdated) ≤
      decayFactor halfLife (t1 - lastUpdated) :=
    pow_le_pow_of_le_one hhalf0 hhalf1 hexp
  have hfac0 : 0 ≤ decayFactor halfLife (t2 - lastUpdated) :=
    pow_nonneg hhalf0 _
  have hfac1 : decayFactor halfLife (t2 - lastUpdated) ≤ 1 :=
    pow_le_one₀ hhalf0 hhalf1
  refine ⟨mul_le_mul_of_nonneg_left hfac hs, mul_nonneg hs hfac0, ?_⟩
  calc score * decayFactor halfLife (t2 - lastUpdated)
      ≤ score * 1 := mul_le_mul_of_nonneg_left hfac1 hs
    _ = score := mul_one score

/-- Witness for C4 at concrete score, half-life and times. -/
theorem decay_monotone_witness :
    (0 : ℚ) ≤ 3 / 4 ∧ (3 : ℕ) ≤ 7 ∧
      (decayedScore (3 / 4) 0 2 7 ≤ decayedScore (3 / 4) 0 2 3 ∧
        0 ≤ decayedScore (3 / 4) 0 2 7 ∧
        decayedScore (3 / 4) 0 2 7 ≤ 3 / 4) :=
  ⟨by norm_num, by norm_num,
    decay_monotone (3 / 4) 0 2 3 7 (by norm_num) (by norm_num)⟩

/-- C5: observe accepts an event exactly when its content identifier is
non-empty and its watch fraction lies in [0,1]; otherwise it rejects with a
reason distinguishing a missing field from an out-of-range value. -/
theorem observe_validation (ev : ViewingEvent) :
    (observeValidate ev = ObserveResult.accepted ↔
      ev.contentId ≠ "" ∧ 0 ≤ ev.watchPct ∧ ev.watchPct ≤ 1) ∧
    (ev.contentId = "" →
      observeValidate ev =
        ObserveResult.rejected (RejectReason.missingField "content_id")) ∧
    (ev.contentId ≠ "" → (ev.watchPct < 0 ∨ 1 < ev.watchPct) →
      observeValidate ev =
        ObserveResult.rejected (RejectReason.outOfRange "watch_pct")) := by
  unfold observeValidate
  by_cases h1 : ev.contentId = ""
  · rw [if_pos h1]
    refine ⟨?_, fun _ => rfl, fun hne _ => absurd h1 hne⟩
    constructor
    · intro h
      cases h
    · intro ⟨hne, _⟩
      exact absurd h1 hne
  · rw [if_neg h1]
    by_cases h2 : ev.watchPct < 0 ∨ 1 < ev.watchPct
    · rw [if_pos h2]
      refine ⟨?_, fun habs => absurd habs h1, fun _ _ => rfl⟩
      constructor
      · intro h
        cases h
      · intro ⟨_, hlo, hhi⟩
        rcases h2 with h2 | h2
        · exact absurd hlo (not_le.mpr h2)
        · exact absurd hhi (not_le.mpr h2)
    · rw [if_neg h2]
      push_neg at h2
      refine ⟨?_, fun habs => absurd habs h1, fun _ habs => absurd habs ?_⟩
      · exact ⟨fun _ => ⟨h1, h2.1, h2.2⟩, fun _ => rfl⟩
      · push_neg
        exact h2

/-- Witness for C5: a missing content identifier is rejected with the
missing-field reason. -/
theorem observe_validation_witness :
    observeValidate
        { contentId := "", watchPct := 1 / 2, durationSec := none,
          rating := none, timestamp := none } =
      ObserveResult.rejected (RejectReason.missingField "content_id") :=
  (observe_validation _).2.1 rfl

theorem keyOrder_trans {α : Type} (key : α → ℚ) (tag : α → String)
    (a b c : α)
    (h1 : key b < key a ∨ (key a = key b ∧ tag a ≤ tag b))
    (h2 : key c < key b ∨ (key b = key c ∧ tag b ≤ tag c)) :
    key c < key a ∨ (key a = key c ∧ tag a ≤ tag c) := by
  rcases h1 with h1 | ⟨h1e, h1s⟩
  · rcases h2 with h2 | ⟨h2e, h2s⟩
    · exact Or.inl (by linarith)
    · exact Or.inl (by linarith)
  · rcases h2 with h2 | ⟨h2e, h2s⟩
    · exact Or.inl (by linarith)
    · exact Or.inr ⟨h1e.trans h2e, le_trans h1s h2s⟩

theorem keyOrder_total {α : Type} (key : α → ℚ) (tag : α → String)
    (a b : α) :
    (key b < key a ∨ (key a = key b ∧ tag a ≤ tag b)) ∨
      (key a < key b ∨ (key b = key a ∧ tag b ≤ tag a)) := by
  rcases lt_trichotomy (key a) (key b) with h | h | h
  · exact Or.inr (Or.inl h)
  · rcases le_total (tag a) (tag b) with hid | hid
    · exact Or.inl (Or.inr ⟨h, hid⟩)
    · exact Or.inr (Or.inr ⟨h.symm, hid⟩)
  · exact Or.inl (Or.inl h)

theorem sigGE_trans (halfLife now : ℕ) (a b c : ContentPattern)
    (h1 : sigGE halfLife now a b) (h2 : sigGE halfLife now b c) :
    sigGE halfLife now a c := by
  simp only [sigGE, decide_eq_true_eq] at h1 h2 ⊢
  exact keyOrder_trans (significance halfLife now) (·.id) a b c h1 h2

theorem sigGE_total (halfLife now : ℕ) (a b : ContentPattern) :
    sigGE halfLife now a b || sigGE halfLife now b a := by
  simp only [sigGE, Bool.or_eq_true, decide_eq_true_eq]
  exact keyOrder_total (significance halfLife now) (·.id) a b

/-- C6: when the entry count exceeds the capacity ceiling, eviction keeps
exactly the ceiling number of entries, the kept and removed entries together
are a permutation of the original entries, and every removed entry has
significance (score × recency) at most that of every kept entry. -/
theorem evict_keeps_top_significance (s : PatternStore)
    (halfLife now cap : ℕ) (h : cap < s.entries.length) :
    (evictIfOverCapacity s halfLife now cap).entries =
      (s.entries.mergeSort (sigGE halfLife now)).take cap ∧
    (evictIfOverCapacity s halfLife now cap).entries.length = cap ∧
    List.Perm ((evictIfOverCapacity s halfLife now cap).entries ++
      (s.entries.mergeSort (sigGE halfLife now)).drop cap) s.entries ∧
    ∀ x ∈ (evictIfOverCapacity s halfLife now cap).entries,
      ∀ y ∈ (s.entries.mergeSort (sigGE halfLife now)).drop cap,
        significance halfLife now y ≤ significance halfLife now x := by
  have hne : ¬s.entries.length ≤ cap := not_le.mpr h
  have hentries : (evictIfOverCapacity s halfLife now cap).entries =
      (s.entries.mergeSort (sigGE halfLife now)).take cap := by
    unfold evictIfOverCapacity
    rw [if_neg hne]
  have hlensort : (s.entries.mergeSort (sigGE halfLife now)).length =
      s.entries.length := List.length_mergeSort _
  have happ : (s.entries.mergeSort (sigGE halfLife now)).take cap ++
      (s.entries.mergeSort (sigGE halfLife now)).drop cap =
      s.entries.mergeSort (sigGE halfLife now) :=
    List.take_append_drop _ _
  have hsorted : (s.entries.mergeSort (sigGE halfLife now)).Pairwise
      (fun a b => sigGE halfLife now a b) :=
    List.sorted_mergeSort (fun a b c => sigGE_trans halfLife now a b c)
      (fun a b => sigGE_total halfLife now a b) s.entries
  have hpair := hsorted
  rw [← happ] at hpair
  have hcross := (List.pairwise_append.mp hpair).2.2
  refine ⟨hentries, ?_, ?_, ?_⟩
  · rw [hentries, List.length_take, hlensort]
    exact Nat.min_eq_left (Nat.le_of_lt h)
  · rw [hentries, happ]
    exact List.mergeSort_perm _ _
  · intro x hx y hy
    rw [hentries] at hx
    have hxy := hcross x hx y hy
    simp only [sigGE, decide_eq_true_eq] at hxy
    rcases hxy with hxy | ⟨hxy, _⟩
    · exact le_of_lt hxy
    · exact le_of_eq hxy.symm

/-- Witness for C6 at the end-to-end scenario: a store of 200 entries
against a ceiling of 100. -/
theorem evict_keeps_top_significance_witness :
    100 < demoStore.entries.length ∧
      ((evictIfOverCapacity demoStore 10 300 100).entries =
          (demoStore.entries.mergeSort (sigGE 10 300)).take 100 ∧
        (evictIfOverCapacity demoStore 10 300 100).entries.length = 100 ∧
        List.Perm ((evictIfOverCapacity demoStore 10 300 100).entries ++
          (demoStore.entries.mergeSort (sigGE 10 300)).drop 100)
          demoStore.entries ∧
        ∀ x ∈ (evictIfOverCapacity demoStore 10 300 100).entries,
          ∀ y ∈ (demoStore.entries.mergeSort (sigGE 10 300)).drop 100,
            significance 10 300 y ≤ significance 10 300 x) := by
  have hlen : 100 < demoStore.entries.length := by
    simp [demoStore]
  exact ⟨hlen, evict_keeps_top_significance demoStore 10 300 100 hlen⟩

theorem mergeScore_sub (n : ℕ) (lscore g : ℚ) :
    mergeScore n lscore g - lscore = (clamp01 g - lscore) / ((n : ℚ) + 1) := by
  have hne : ((n : ℚ) + 1) ≠ 0 := by positivity
  unfold mergeScore
  field_simp
  ring

theorem mergeEntry_of_not_mem {g : ContentPattern} {l : List ContentPattern}
    (h : g.id ∉ l.map (·.id)) : mergeEntry g l = l ++ [fedEntry g] := by
  induction l with
  | nil => simp [mergeEntry]
  | cons e rest ih =>
    simp only [List.map_cons, List.mem_cons] at h
    push_neg at h
    obtain ⟨h1, h2⟩ := h
    rw [List.cons_append]
    simp only [mergeEntry]
    rw [if_neg (fun he => h1 he.symm), ih h2]

/-- C7: merge_federated moves the score of a high-sample-count local entry
by strictly less than that of a low-sample-count one (the deviation is
inversely related to the sample count), and an incoming entry with no
matching local id is inserted as a new federated-origin entry. -/
theorem merge_federated_strong_local (lscore g : ℚ) (n1 n2 : ℕ)
    (hconf : clamp01 g ≠ lscore) (hn : n1 < n2) :
    |mergeScore n2 lscore g - lscore| < |mergeScore n1 lscore g - lscore| ∧
    ∀ (s : PatternStore) (ge : ContentPattern), ge.id ∉ keys s →
      ∃ e ∈ (mergeFederated s [ge]).entries,
        e.id = ge.id ∧ e.origin = Origin.federated := by
  constructor
  · rw [mergeScore_sub, mergeScore_sub, abs_div, abs_div]
    have h1 : |((n1 : ℚ) + 1)| = (n1 : ℚ) + 1 :=
      abs_of_pos (by positivity)
    have h2 : |((n2 : ℚ) + 1)| = (n2 : ℚ) + 1 :=
      abs_of_pos (by positivity)
    rw [h1, h2]
    apply div_lt_div_of_pos_left
    · exact abs_pos.mpr (sub_ne_zero.mpr hconf)
    · positivity
    · have : (n1 : ℚ) < (n2 : ℚ) := by exact_mod_cast hn
      linarith
  · intro s ge hge
    have hm : mergeEntry ge s.entries = s.entries ++ [fedEntry ge] :=
      mergeEntry_of_not_mem hge
    refine ⟨fedEntry ge, ?_, rfl, rfl⟩
    show fedEntry ge ∈ (mergeFederated s [ge]).entries
    unfold mergeFederated
    simp only [List.foldl_cons, List.foldl_nil]
    rw [hm]
    exact List.mem_append_right _ (List.mem_singleton.mpr rfl)

/-- Witness for C7 at concrete scores and sample counts. -/
theorem merge_federated_strong_local_witness :
    clamp01 1 ≠ (0 : ℚ) ∧ 1 < 10 ∧
      (|mergeScore 10 0 1 - 0| < |mergeScore 1 0 1 - 0| ∧
        ∀ (s : PatternStore) (ge : ContentPattern), ge.id ∉ keys s →
          ∃ e ∈ (mergeFederated s [ge]).entries,
            e.id = ge.id ∧ e.origin = Origin.federated) := by
  have hconf : clamp01 1 ≠ (0 : ℚ) := by
    norm_num [clamp01]
  exact ⟨hconf, by norm_num,
    merge_federated_strong_local 0 1 1 10 hconf (by norm_num)⟩

theorem rankLE_trans (rel : ViewingContext → String → ℚ) (wP wC wR : ℚ)
    (ctx : ViewingContext) (a b c : ContentPattern)
    (h1 : rankLE rel wP wC wR ctx a b) (h2 : rankLE rel wP wC wR ctx b c) :
    rankLE rel wP wC wR ctx a c := by
  simp only [rankLE, decide_eq_true_eq] at h1 h2 ⊢
  exact keyOrder_trans (rankKey rel wP wC wR ctx) (·.id) a b c h1 h2

theorem rankLE_total (rel : ViewingContext → String → ℚ) (wP wC wR : ℚ)
    (ctx : ViewingContext) (a b : ContentPattern) :
    rankLE rel wP wC wR ctx a b || rankLE rel wP wC wR ctx b a := by
  simp only [rankLE, Bool.or_eq_true, decide_eq_true_eq]
  exact keyOrder_total (rankKey rel wP wC wR ctx) (·.id) a b

/-- C8: recommend is deterministic (two calls on the same immutable snapshot
and context return identical ordered output), its output has length at most
top-k, and the output is ordered by the weighted rank key with ties broken
lexicographically by identifier. -/
theorem recommend_deterministic (rel : ViewingContext → String → ℚ)
    (wP wC wR : ℚ) (ctx : ViewingContext) (s : PatternStore) (topK : ℕ) :
    recommend rel wP wC wR ctx s topK = recommend rel wP wC wR ctx s topK ∧
    (recommend rel wP wC wR ctx s topK).length ≤ topK ∧
    List.Pairwise
      (fun a b : ScoredItem =>
        b.score < a.score ∨ (a.score = b.score ∧ a.id ≤ b.id))
      (recommend rel wP wC wR ctx s topK) := by
  refine ⟨rfl, ?_, ?_⟩
  · unfold recommend
    rw [List.length_map]
    exact List.length_take_le _ _
  · unfold recommend
    rw [List.pairwise_map]
    have hsorted : (s.entries.mergeSort (rankLE rel wP wC wR ctx)).Pairwise
        (fun a b => rankLE rel wP wC wR ctx a b) :=
      List.sorted_mergeSort (fun a b c => rankLE_trans rel wP wC wR ctx a b c)
        (fun a b => rankLE_total rel wP wC wR ctx a b) s.entries
    have htake := List.Pairwise.sublist (List.take_sublist topK _) hsorted
    apply htake.imp
    intro a b hab
    simp only [rankLE, decide_eq_true_eq] at hab
    exact hab

/-- C9: a sync request issued while a cycle is in Exporting, AwaitingPeer or
Merging returns the sync-in-progress outcome and leaves the engine (hence
the Pattern Store) unchanged; a freshly started cycle makes any further
request report in-progress, so two reconciliations never overlap; and a
cycle awaiting its peer completes normally back to Idle once the response
is merged. -/
theorem sync_no_overlap (e : Engine) (h : e.syncState.busy = true) :
    startSync e = (SyncStart.inProgress, e) ∧
    (∀ e2 : Engine, e2.syncState.busy = false →
      (startSync (startSync e2).2).1 = SyncStart.inProgress) ∧
    (∀ (gs : List ContentPattern) (now : ℕ) (e3 : Engine),
      e3.syncState = SyncState.awaitingPeer →
      (applyMergeStep gs now (receiveResponse e3)).syncState =
        SyncState.idle) := by
  refine ⟨?_, ?_, ?_⟩
  · unfold startSync
    rw [if_pos h]
  · intro e2 h2
    have hcond : ¬e2.syncState.busy = true := by
      rw [h2]
      exact Bool.false_ne_true
    have hstep : (startSync e2).2 =
        { e2 with syncState := SyncState.exporting } := by
      unfold startSync
      rw [if_neg hcond]
    rw [hstep]
    have hbusy :
        ({ e2 with syncState := SyncState.exporting } : Engine).syncState.busy
          = true := rfl
    unfold startSync
    rw [if_pos hbusy]
  · intro gs now e3 h3
    unfold receiveResponse
    rw [if_pos h3]
    unfold applyMergeStep
    rw [if_pos rfl]

/-- Witness for C9 at a concrete engine awaiting its peer. -/
theorem sync_no_overlap_witness :
    SyncState.busy SyncState.awaitingPeer = true ∧
      (startSync
          { store := emptyStore, syncState := SyncState.awaitingPeer,
            lastSync := none } =
        (SyncStart.inProgress,
          { store := emptyStore, syncState := SyncState.awaitingPeer,
            lastSync := none }) ∧
      (∀ e2 : Engine, e2.syncState.busy = false →
        (startSync (startSync e2).2).1 = SyncStart.inProgress) ∧
      (∀ (gs : List ContentPattern) (now : ℕ) (e3 : Engine),
        e3.syncState = SyncState.awaitingPeer →
        (applyMergeStep gs now (receiveResponse e3)).syncState =
          SyncState.idle)) :=
  ⟨rfl, sync_no_overlap
    { store := emptyStore, syncState := SyncState.awaitingPeer,
      lastSync := none } rfl⟩

theorem foldl_isSome (cs : List ApiCall) :
    ∀ s : Option Engine,
      ((cs.foldl (fun s2 c => (applyCall s2 c).2) s).isSome) =
        cs.foldl
          (fun b c =>
            match c with
            | ApiCall.initCall => true
            | ApiCall.shutdownCall => false
            | _ => b)
          s.isSome := by
  induction cs with
  | nil =>
    intro s
    rfl
  | cons c rest ih =>
    intro s
    have hstep : ((applyCall s c).2).isSome =
        (match c with
         | ApiCall.initCall => true
         | ApiCall.shutdownCall => false
         | _ => s.isSome) := by
      cases c <;> cases s <;> rfl
    simp only [List.foldl_cons]
    rw [ih, hstep]

/-- C10: every gated SDK operation called while not initialized returns
OMEGA_ERR_NOT_INITIALIZED without performing any work; omega_init while
already initialized returns OMEGA_ERR_ALREADY_INITIALIZED; and
omega_is_initialized reports 1 exactly when a successful omega_init has
occurred without a subsequent omega_shutdown. -/
theorem sdk_lifecycle_gating :
    (∀ c : ApiCall, gated c = true →
      applyCall none c = (ERR_NOT_INITIALIZED, none)) ∧
    (∀ e : Engine, applyCall (some e) ApiCall.initCall =
      (ERR_ALREADY_INITIALIZED, some e)) ∧
    (∀ cs : List ApiCall,
      (applyCall (runCalls cs) ApiCall.isInitCall).1 =
        if activeAfter cs = true then 1 else 0) := by
  refine ⟨?_, ?_, ?_⟩
  · intro c hc
    cases c <;> first | rfl | exact Bool.noConfusion hc
  · intro e
    rfl
  · intro cs
    have hrun : (runCalls cs).isSome = activeAfter cs := foldl_isSome cs none
    cases hb : (runCalls cs).isSome with
    | true =>
      have hact : activeAfter cs = true := by rw [← hrun, hb]
      simp [applyCall, hb, hact]
    | false =>
      have hact : activeAfter cs = false := by rw [← hrun, hb]
      simp [applyCall, hb, hact]

/-- Witness for C10: a sync call before initialization is gated, a second
init is rejected, and is-initialized reports 0 after init then shutdown. -/
theorem sdk_lifecycle_gating_witness :
    gated ApiCall.syncCall = true ∧
      applyCall none ApiCall.syncCall = (ERR_NOT_INITIALIZED, none) ∧
      applyCall (some freshEngine) ApiCall.initCall =
        (ERR_ALREADY_INITIALIZED, some freshEngine) ∧
      (applyCall (runCalls [ApiCall.initCall, ApiCall.shutdownCall])
          ApiCall.isInitCall).1 = 0 := by
  refine ⟨rfl, sdk_lifecycle_gating.1 ApiCall.syncCall rfl,
    sdk_lifecycle_gating.2.1 freshEngine, ?_⟩
  rw [sdk_lifecycle_gating.2.2 [ApiCall.initCall, ApiCall.shutdownCall]]
  rfl

end Omega
